import Mathlib

/-!
Verification of the SockStream upstream proxy pool and reverse-proxy core.

The Go source is shallowly embedded: Go errors become the inductive `GoErr`
(modelling the sentinel errors, `net.Error` values, `*url.Error` wrappers and
`fmt.Errorf("...: %w", e)` wrapping used by the code), the proxy pool state
becomes an explicit record threaded through the dispatch loop, and network
round trips are abstracted by an outcome function from snapshot positions to
results (the code performs at most one round trip per entry per dispatch).
-/

namespace SockStream

/-! ## Go error model (internal/proxy: error values seen by isTimeoutError)

`ctxDeadline` is `context.DeadlineExceeded`, `osDeadline` is
`os.ErrDeadlineExceeded` (both carry a `Timeout() bool` method returning
true), `netErr timeout msg` is a concrete `net.Error` leaf whose `Timeout()`
returns `timeout`, `urlError inner` is a `*url.Error` wrapping `inner`
(itself a `net.Error` whose `Timeout()` type-asserts the inner error), a
`wrapped pfx inner` is `fmt.Errorf(pfx + ": %w", inner)` (no `Timeout()`
method), and `basic msg` is any other plain error. -/
inductive GoErr where
  | ctxDeadline : GoErr
  | osDeadline : GoErr
  | netErr (timeout : Bool) (msg : String) : GoErr
  | urlError (inner : GoErr) : GoErr
  | wrapped (pfx : String) (inner : GoErr) : GoErr
  | basic (msg : String) : GoErr
deriving DecidableEq, Repr

/-- `err.Error()` for the modelled errors; `wrapped` mirrors
`fmt.Errorf("%s: %w", pfx, inner)`. -/
def GoErr.message : GoErr → String
  | .ctxDeadline => "context deadline exceeded"
  | .osDeadline => "i/o timeout"
  | .netErr _ msg => msg
  | .urlError inner => "url error: " ++ inner.message
  | .wrapped pfx inner => pfx ++ ": " ++ inner.message
  | .basic msg => msg

/-- `errors.Is(e, target)` for sentinel targets: compare, then follow the
`Unwrap()` chain (`*url.Error` and `%w`-wrapped errors unwrap to their inner
error; the other modelled errors have no `Unwrap`). -/
def errorsIs : GoErr → GoErr → Bool
  | .urlError inner, t => (GoErr.urlError inner == t) || errorsIs inner t
  | .wrapped pfx inner, t => (GoErr.wrapped pfx inner == t) || errorsIs inner t
  | e, t => e == t

/-- The `Timeout() bool` capability: `some b` when the error implements
`net.Error` and its `Timeout()` returns `b`, `none` otherwise. A
`*url.Error`'s `Timeout()` type-asserts its inner error (without unwrapping
further) and returns false when the inner error lacks the capability. -/
def timeoutCap : GoErr → Option Bool
  | .ctxDeadline => some true
  | .osDeadline => some true
  | .netErr b _ => some b
  | .urlError inner => some ((timeoutCap inner).getD false)
  | .wrapped _ _ => none
  | .basic _ => none

/-- `errors.As(err, &netErr)` followed by `netErr.Timeout()`: find the first
error in the unwrap chain implementing `net.Error` and report its
`Timeout()`. -/
def errorsAsNetTimeout (e : GoErr) : Option Bool :=
  match timeoutCap e with
  | some b => some b
  | none =>
    match e with
    | .wrapped _ inner => errorsAsNetTimeout inner
    | _ => none

/-- `errors.As(err, &urlErr)`: the first `*url.Error` in the unwrap chain,
returning its inner error (`urlErr.Err`). -/
def errorsAsURL : GoErr → Option GoErr
  | .urlError inner => some inner
  | .wrapped _ inner => errorsAsURL inner
  | _ => none

theorem errorsAsURL_sizeOf_lt : ∀ (e i : GoErr), errorsAsURL e = some i → sizeOf i < sizeOf e := by
  intro e
  induction e with
  | urlError inner ih =>
    intro i h
    simp only [errorsAsURL, Option.some.injEq] at h
    subst h
    simp only [GoErr.urlError.sizeOf_spec]
    omega
  | wrapped pfx inner ih =>
    intro i h
    simp only [errorsAsURL] at h
    have := ih i h
    simp only [GoErr.wrapped.sizeOf_spec]
    omega
  | ctxDeadline => intro i h; simp [errorsAsURL] at h
  | osDeadline => intro i h; simp [errorsAsURL] at h
  | netErr b msg => intro i h; simp [errorsAsURL] at h
  | basic msg => intro i h; simp [errorsAsURL] at h

/-- `isTimeoutError` (src/unnamed/part_003 lines 366-395), for non-nil
errors: check `errors.Is(err, context.DeadlineExceeded)`, then
`errors.Is(err, os.ErrDeadlineExceeded)`, then `errors.As` a `net.Error`
whose `Timeout()` is true, then recurse into the inner error of an
`errors.As`-found `*url.Error`. -/
def isTimeoutError (e : GoErr) : Bool :=
  if errorsIs e .ctxDeadline then true
  else if errorsIs e .osDeadline then true
  else if (errorsAsNetTimeout e).getD false then true
  else
    match h : errorsAsURL e with
    | some inner => isTimeoutError inner
    | none => false
termination_by sizeOf e
decreasing_by exact errorsAsURL_sizeOf_lt e inner h

/-- The full classifier including the code's leading `err == nil` check. -/
def isTimeoutErrorOpt : Option GoErr → Bool
  | none => false
  | some e => isTimeoutError e

/-- Modelled from the spec (§4.3.5): some error in the transitive unwrap
chain exposes a `Timeout()`-style capability returning true. -/
def chainHasTimeoutTrue : GoErr → Bool
  | .urlError inner =>
      (timeoutCap (.urlError inner)).getD false || chainHasTimeoutTrue inner
  | .wrapped pfx inner =>
      (timeoutCap (.wrapped pfx inner)).getD false || chainHasTimeoutTrue inner
  | e => (timeoutCap e).getD false

/-- Modelled from the spec (§4.3.5): an error is a timeout iff it wraps
(transitively) the context deadline sentinel, or the I/O deadline sentinel,
or an error whose `Timeout()` returns true, or it is a URL-error wrapper
whose inner error is itself a timeout by this definition. -/
def specIsTimeout : GoErr → Bool
  | .urlError inner =>
      errorsIs (.urlError inner) .ctxDeadline || errorsIs (.urlError inner) .osDeadline ||
        chainHasTimeoutTrue (.urlError inner) || specIsTimeout inner
  | e => errorsIs e .ctxDeadline || errorsIs e .osDeadline || chainHasTimeoutTrue e

/-- Wrapping a sentinel implies the chain has a `Timeout()`-true element
(both sentinels themselves return `Timeout() = true`). -/
theorem chainHasTimeoutTrue_of_errorsIs_ctx :
    ∀ e : GoErr, errorsIs e .ctxDeadline = true → chainHasTimeoutTrue e = true := by
  intro e
  induction e with
  | urlError inner ih =>
    intro h
    simp only [errorsIs, Bool.or_eq_true, beq_iff_eq] at h
    rcases h with h | h
    · exact absurd h (by simp)
    · simp only [chainHasTimeoutTrue, Bool.or_eq_true]
      exact Or.inr (ih h)
  | wrapped pfx inner ih =>
    intro h
    simp only [errorsIs, Bool.or_eq_true, beq_iff_eq] at h
    rcases h with h | h
    · exact absurd h (by simp)
    · simp only [chainHasTimeoutTrue, Bool.or_eq_true]
      exact Or.inr (ih h)
  | ctxDeadline => intro _; rfl
  | osDeadline => intro h; simp [errorsIs] at h
  | netErr b msg => intro h; simp [errorsIs] at h
  | basic msg => intro h; simp [errorsIs] at h

theorem chainHasTimeoutTrue_of_errorsIs_os :
    ∀ e : GoErr, errorsIs e .osDeadline = true → chainHasTimeoutTrue e = true := by
  intro e
  induction e with
  | urlError inner ih =>
    intro h
    simp only [errorsIs, Bool.or_eq_true, beq_iff_eq] at h
    rcases h with h | h
    · exact absurd h (by simp)
    · simp only [chainHasTimeoutTrue, Bool.or_eq_true]
      exact Or.inr (ih h)
  | wrapped pfx inner ih =>
    intro h
    simp only [errorsIs, Bool.or_eq_true, beq_iff_eq] at h
    rcases h with h | h
    · exact absurd h (by simp)
    · simp only [chainHasTimeoutTrue, Bool.or_eq_true]
      exact Or.inr (ih h)
  | ctxDeadline => intro h; simp [errorsIs] at h
  | osDeadline => intro _; rfl
  | netErr b msg => intro h; simp [errorsIs] at h
  | basic msg => intro h; simp [errorsIs] at h

/-- The spec's fourth disjunct (URL wrapper with timeout inner) is absorbed
by the first three: the spec classifier equals the three chain checks. -/
theorem specIsTimeout_eq_three (e : GoErr) :
    specIsTimeout e =
      (errorsIs e .ctxDeadline || errorsIs e .osDeadline || chainHasTimeoutTrue e) := by
  induction e with
  | urlError inner ih =>
    simp only [specIsTimeout]
    cases hc : errorsIs (GoErr.urlError inner) .ctxDeadline
    · cases ho : errorsIs (GoErr.urlError inner) .osDeadline
      · cases hch : chainHasTimeoutTrue (GoErr.urlError inner)
        · -- all three false: show specIsTimeout inner = false as well
          simp only [Bool.false_or, Bool.or_false]
          rw [ih]
          simp only [chainHasTimeoutTrue, Bool.or_eq_false_iff] at hch
          have hic : errorsIs inner .ctxDeadline = false := by
            cases h : errorsIs inner .ctxDeadline
            · rfl
            · exact absurd (chainHasTimeoutTrue_of_errorsIs_ctx inner h) (by simp [hch.2])
          have hio : errorsIs inner .osDeadline = false := by
            cases h : errorsIs inner .osDeadline
            · rfl
            · exact absurd (chainHasTimeoutTrue_of_errorsIs_os inner h) (by simp [hch.2])
          simp [hic, hio, hch.2]
        · simp
      · simp
    · simp
  | wrapped pfx inner ih => simp [specIsTimeout]
  | ctxDeadline => simp [specIsTimeout]
  | osDeadline => simp [specIsTimeout]
  | netErr b msg => simp [specIsTimeout]
  | basic msg => simp [specIsTimeout]

theorem wrapped_beq_ctx (pfx : String) (inner : GoErr) :
    (GoErr.wrapped pfx inner == GoErr.ctxDeadline) = false := rfl

theorem wrapped_beq_os (pfx : String) (inner : GoErr) :
    (GoErr.wrapped pfx inner == GoErr.osDeadline) = false := rfl

theorem urlError_beq_ctx (inner : GoErr) :
    (GoErr.urlError inner == GoErr.ctxDeadline) = false := rfl

theorem urlError_beq_os (inner : GoErr) :
    (GoErr.urlError inner == GoErr.osDeadline) = false := rfl

/-- One-step unfolding of the classifier, with the if-chain rendered as a
boolean disjunction. -/
theorem isTimeoutError_unfold (e : GoErr) :
    isTimeoutError e =
      (errorsIs e .ctxDeadline || errorsIs e .osDeadline ||
        (errorsAsNetTimeout e).getD false ||
        (match errorsAsURL e with
          | some inner => isTimeoutError inner
          | none => false)) := by
  rw [isTimeoutError]
  cases h1 : errorsIs e GoErr.ctxDeadline <;>
    cases h2 : errorsIs e GoErr.osDeadline <;>
      cases h3 : (errorsAsNetTimeout e).getD false <;>
        cases hu : errorsAsURL e <;>
          simp [h1, h2, h3, hu]

/-- The code's classifier agrees with the chain-based characterization: an
error is classified as a timeout iff its unwrap chain contains an element
whose `Timeout()` capability returns true (which subsumes the sentinels). -/
theorem isTimeoutError_eq_chain (e : GoErr) :
    isTimeoutError e = chainHasTimeoutTrue e := by
  induction e with
  | ctxDeadline => rw [isTimeoutError_unfold]; rfl
  | osDeadline => rw [isTimeoutError_unfold]; rfl
  | netErr b msg =>
    rw [isTimeoutError_unfold]
    simp [errorsIs, errorsAsNetTimeout, errorsAsURL, timeoutCap, chainHasTimeoutTrue]
  | basic msg =>
    rw [isTimeoutError_unfold]
    simp [errorsIs, errorsAsNetTimeout, errorsAsURL, timeoutCap, chainHasTimeoutTrue]
  | wrapped pfx inner ih =>
    have hw : isTimeoutError (.wrapped pfx inner) = isTimeoutError inner := by
      rw [isTimeoutError_unfold (.wrapped pfx inner), isTimeoutError_unfold inner]
      simp only [errorsIs, wrapped_beq_ctx, wrapped_beq_os, Bool.false_or]
      have hn : errorsAsNetTimeout (.wrapped pfx inner) = errorsAsNetTimeout inner := rfl
      have hu : errorsAsURL (.wrapped pfx inner) = errorsAsURL inner := rfl
      rw [hn, hu]
    rw [hw, ih]
    rfl
  | urlError inner ih =>
    rw [isTimeoutError_unfold]
    simp only [errorsIs, urlError_beq_ctx, urlError_beq_os, Bool.false_or]
    have hn : (errorsAsNetTimeout (.urlError inner)).getD false =
        (timeoutCap inner).getD false := rfl
    have hu : errorsAsURL (.urlError inner) = some inner := rfl
    rw [hn, hu]
    simp only [ih]
    have hrhs : chainHasTimeoutTrue (.urlError inner) =
        ((timeoutCap inner).getD false || chainHasTimeoutTrue inner) := by
      rw [chainHasTimeoutTrue]
      simp [timeoutCap]
    rw [hrhs]
    cases hic : errorsIs inner GoErr.ctxDeadline
    · cases hio : errorsIs inner GoErr.osDeadline
      · simp
      · simp [chainHasTimeoutTrue_of_errorsIs_os inner hio]
    · simp [chainHasTimeoutTrue_of_errorsIs_ctx inner hic]

/--
Claim C2: for every error value, the timeout classifier returns true iff the
error wraps (transitively through chained and wrapped errors) the context
deadline-exceeded sentinel, the I/O deadline-exceeded sentinel, or an error
whose `Timeout()` capability returns true, or is a URL-error wrapper whose
inner error is itself a timeout by this definition; every other error, and
the nil error, is classified as not a timeout.
-/
theorem isTimeoutError_iff_spec :
    isTimeoutErrorOpt none = false ∧
      ∀ e : GoErr, isTimeoutErrorOpt (some e) = specIsTimeout e := by
  refine ⟨rfl, fun e => ?_⟩
  rw [isTimeoutErrorOpt, isTimeoutError_eq_chain, specIsTimeout_eq_three]
  cases hic : errorsIs e GoErr.ctxDeadline
  · cases hio : errorsIs e GoErr.osDeadline
    · simp
    · simp [chainHasTimeoutTrue_of_errorsIs_os e hio]
  · simp [chainHasTimeoutTrue_of_errorsIs_ctx e hic]

/-! ## Access control (internal/server access.go: AccessControl, Allowed)

An IP address is modelled as a `Nat` (the client IP may also be null, hence
`Option Nat` at the `Allowed` boundary); a parsed CIDR range (`*net.IPNet`)
is modelled by its `Contains` test. -/

/-- A parsed CIDR range, represented by its membership test
(`net.IPNet.Contains`). -/
structure IPNet where
  contains : Nat → Bool

/-- The `AccessControl` value: parsed allow and block range lists. -/
structure AccessControl where
  allow : List IPNet
  block : List IPNet

/-- `AccessControl.Allowed` (src/unnamed/part_001 lines 37-56): nil IP is
rejected; any block-range hit is rejected; an empty allow list permits the
rest; otherwise some allow range must contain the IP. -/
def AccessControl.Allowed (a : AccessControl) (ip : Option Nat) : Bool :=
  match ip with
  | none => false
  | some addr =>
    if a.block.any (fun n => n.contains addr) then false
    else if a.allow.isEmpty then true
    else a.allow.any (fun n => n.contains addr)

/--
Claim C5: for every access-control set and IP, `Allowed` returns false on a
null IP; returns false when any block range contains the IP regardless of
the allow list; otherwise returns true when the allow list is empty, and
otherwise returns true iff some allow range contains the IP.
-/
theorem accessControl_allowed_spec (a : AccessControl) (ip : Option Nat) :
    (ip = none → a.Allowed ip = false) ∧
      (∀ addr, ip = some addr →
        ((∃ n ∈ a.block, n.contains addr = true) → a.Allowed ip = false) ∧
        ((∀ n ∈ a.block, n.contains addr = false) → a.allow = [] →
          a.Allowed ip = true) ∧
        ((∀ n ∈ a.block, n.contains addr = false) → a.allow ≠ [] →
          (a.Allowed ip = true ↔ ∃ n ∈ a.allow, n.contains addr = true))) := by
  constructor
  · intro h; subst h; rfl
  · intro addr h
    subst h
    refine ⟨?_, ?_, ?_⟩
    · intro ⟨n, hn, hc⟩
      simp only [AccessControl.Allowed]
      rw [if_pos]
      rw [List.any_eq_true]
      exact ⟨n, hn, hc⟩
    · intro hb hempty
      simp only [AccessControl.Allowed]
      rw [if_neg, if_pos]
      · rw [List.isEmpty_iff]; exact hempty
      · simp only [List.any_eq_true, not_exists, not_and]
        intro n hn
        simp [hb n hn]
    · intro hb hne
      simp only [AccessControl.Allowed]
      rw [if_neg, if_neg]
      · simp [List.any_eq_true]
      · rw [List.isEmpty_iff]; exact hne
      · simp only [List.any_eq_true, not_exists, not_and]
        intro n hn
        simp [hb n hn]

/-- Witness for C5 on a concrete access set: allow `[192.168.0.0/16]`, block
`[192.168.1.0/24]` (ranges as membership tests over flat IP numbers), IP in
the blocked subrange is denied and IP in the allowed remainder is permitted. -/
theorem accessControl_allowed_spec_witness :
    ({ allow := [⟨fun ip => 3232235520 ≤ ip && ip < 3232301056⟩],
       block := [⟨fun ip => 3232235776 ≤ ip && ip < 3232236032⟩] } :
        AccessControl).Allowed (some 3232235826) = false ∧
    ({ allow := [⟨fun ip => 3232235520 ≤ ip && ip < 3232301056⟩],
       block := [⟨fun ip => 3232235776 ≤ ip && ip < 3232236032⟩] } :
        AccessControl).Allowed (some 3232236042) = true := by
  constructor
  · exact ((accessControl_allowed_spec _ _).2 3232235826 rfl).1
      ⟨_, List.mem_singleton.mpr rfl, by decide⟩
  · exact (((accessControl_allowed_spec _ _).2 3232236042 rfl).2.2
      (by intro n hn; rw [List.mem_singleton] at hn; subst hn; decide)
      (by simp)).mpr ⟨_, List.mem_singleton.mpr rfl, by decide⟩

/-! ## Configuration (internal/config/config.go) -/

/-- `strings.ToLower` (the strings the code lowercases and compares are
ASCII keywords); defined over the character list so that concrete instances
evaluate by unfolding. -/
def lowerStr (s : String) : String := ⟨s.data.map Char.toLower⟩

/-- A proxy URL after `url.Parse` (the Go standard-library URL parser is
external to this repository; a successfully parsed URL is modelled by its
scheme, host and userinfo components). -/
structure RawURL where
  scheme : String
  host : String := ""
  username : String := ""
  password : String := ""
deriving DecidableEq, Repr

/-- `config.ParsedProxy`. -/
structure ParsedProxy where
  type : String
  address : String
  username : String := ""
  password : String := ""
deriving DecidableEq, Repr

/-- `config.ProxyConfig` (the timeout fields are not needed by the verified
claims and are omitted). -/
structure ProxyConfig where
  type : String := ""
  address : String := ""
  username : String := ""
  password : String := ""
  urls : List RawURL := []
  rotation : String := ""
deriving DecidableEq, Repr

/-- `config.ACMEConfig` (claims use only `enabled` and `domain`). -/
structure ACMEConfig where
  enabled : Bool := false
  domain : String := ""
deriving DecidableEq, Repr

/-- `config.TLSConfig` (claims use only the ACME part). -/
structure TLSConfig where
  acme : ACMEConfig := {}
deriving DecidableEq, Repr

/-- `config.Config` (the fields `Validate` reads). -/
structure Config where
  listen : String := ""
  target : String := ""
  proxy : ProxyConfig := {}
  tls : TLSConfig := {}
deriving DecidableEq, Repr

/-- `config.ParseProxyURL` (config.go lines 53-77): lowercase the scheme,
accept only socks5/http/https, carry host and credentials over. -/
def ParseProxyURL (u : RawURL) : Except String ParsedProxy :=
  let proxyType := lowerStr u.scheme
  if proxyType = "socks5" ∨ proxyType = "http" ∨ proxyType = "https" then
    .ok { type := proxyType, address := u.host,
          username := u.username, password := u.password }
  else
    .error ("unsupported proxy scheme: " ++ proxyType)

/-- `ProxyConfig.GetProxies` (config.go lines 80-104): parse the URL list
(first failure aborts, each parsed type lowered again); when the URL list
yields nothing and the legacy type is neither "" nor exactly "direct"
(case-sensitive comparison), emit one legacy descriptor with a lowercased
type. -/
def GetProxies (c : ProxyConfig) : Except String (List ParsedProxy) := do
  let parsed ← c.urls.mapM ParseProxyURL
  let proxies := parsed.map (fun p => { p with type := lowerStr p.type })
  if proxies.isEmpty ∧ c.type ≠ "" ∧ c.type ≠ "direct" then
    pure [{ type := lowerStr c.type, address := c.address,
            username := c.username, password := c.password }]
  else
    pure proxies

/-- The URL-validation pass inside `Config.Validate`: return the first
parse error, wrapped. -/
def validateURLs : List RawURL → Option String
  | [] => none
  | u :: rest =>
    match ParseProxyURL u with
    | .error e => some ("invalid proxy URL: " ++ e)
    | .ok _ => validateURLs rest

/-- `Config.Validate` (config.go lines 234-261); the Go `switch` statements
on the lowercased type and rotation are membership tests with the listed
cases proceeding and the default case erroring. -/
def Config.Validate (c : Config) : Option String :=
  if c.target = "" then some "target is required"
  else if c.listen = "" then some "listen is required"
  else if lowerStr c.proxy.type ∈ (["", "direct", "socks5", "http", "https"] : List String) then
    match validateURLs c.proxy.urls with
    | some e => some e
    | none =>
      if lowerStr c.proxy.rotation ∈ (["", "round-robin", "random"] : List String) then
        if c.tls.acme.enabled = true ∧ c.tls.acme.domain = "" then
          some "acme enabled but domain is empty"
        else none
      else some ("unsupported proxy rotation: " ++ c.proxy.rotation)
  else some ("unsupported proxy type: " ++ c.proxy.type)

theorem validateURLs_eq_none_iff (us : List RawURL) :
    validateURLs us = none ↔
      ∀ u ∈ us, lowerStr u.scheme ∈ (["socks5", "http", "https"] : List String) := by
  induction us with
  | nil => simp [validateURLs]
  | cons u rest ih =>
    by_cases h : lowerStr u.scheme = "socks5" ∨ lowerStr u.scheme = "http" ∨
        lowerStr u.scheme = "https"
    · rw [validateURLs]
      rw [ParseProxyURL]
      simp only [if_pos h]
      rw [ih]
      constructor
      · intro hall v hv
        rcases List.mem_cons.mp hv with hv | hv
        · subst hv; simpa using h
        · exact hall v hv
      · intro hall v hv
        exact hall v (List.mem_cons_of_mem _ hv)
    · rw [validateURLs]
      rw [ParseProxyURL]
      simp only [if_neg h]
      constructor
      · intro hcontra; exact absurd hcontra (by simp)
      · intro hall
        exact absurd (by simpa using hall u (List.mem_cons_self u rest)) h

/--
Claim C7: `Config.Validate` returns an error exactly when the target is
empty, the listen address is empty, the lowercased legacy proxy type is
outside {"", direct, socks5, http, https}, some proxy URL scheme is outside
{socks5, http, https}, the lowercased rotation is outside
{"", round-robin, random}, or ACME is enabled with an empty domain; it
returns no error when none of these conditions holds.
-/
theorem validate_none_iff (c : Config) :
    c.Validate = none ↔
      (c.target ≠ "" ∧ c.listen ≠ "" ∧
        lowerStr c.proxy.type ∈ (["", "direct", "socks5", "http", "https"] : List String) ∧
        (∀ u ∈ c.proxy.urls,
          lowerStr u.scheme ∈ (["socks5", "http", "https"] : List String)) ∧
        lowerStr c.proxy.rotation ∈ (["", "round-robin", "random"] : List String) ∧
        (c.tls.acme.enabled = true → c.tls.acme.domain ≠ "")) := by
  rw [Config.Validate]
  by_cases h1 : c.target = ""
  · rw [if_pos h1]
    constructor
    · intro hfalse; exact absurd hfalse (by simp)
    · rintro ⟨ht, _⟩; exact absurd h1 ht
  · rw [if_neg h1]
    by_cases h2 : c.listen = ""
    · rw [if_pos h2]
      constructor
      · intro hfalse; exact absurd hfalse (by simp)
      · rintro ⟨_, hl, _⟩; exact absurd h2 hl
    · rw [if_neg h2]
      by_cases h3 : lowerStr c.proxy.type ∈ (["", "direct", "socks5", "http", "https"] : List String)
      · rw [if_pos h3]
        cases hu : validateURLs c.proxy.urls with
        | some e =>
          have hnu : ¬ ∀ u ∈ c.proxy.urls,
              lowerStr u.scheme ∈ (["socks5", "http", "https"] : List String) := by
            intro hc
            rw [← validateURLs_eq_none_iff] at hc
            rw [hc] at hu
            exact Option.noConfusion hu
          constructor
          · intro hfalse; exact absurd hfalse (by simp)
          · rintro ⟨_, _, _, hurls, _⟩; exact absurd hurls hnu
        | none =>
          have hurls := (validateURLs_eq_none_iff c.proxy.urls).mp hu
          by_cases h4 : lowerStr c.proxy.rotation ∈ (["", "round-robin", "random"] : List String)
          · rw [if_pos h4]
            by_cases h5 : c.tls.acme.enabled = true ∧ c.tls.acme.domain = ""
            · rw [if_pos h5]
              constructor
              · intro hfalse; exact absurd hfalse (by simp)
              · rintro ⟨_, _, _, _, _, hacme⟩
                exact absurd h5.2 (hacme h5.1)
            · rw [if_neg h5]
              constructor
              · intro _
                refine ⟨h1, h2, h3, hurls, h4, fun he hd => h5 ⟨he, hd⟩⟩
              · intro _; rfl
          · rw [if_neg h4]
            constructor
            · intro hfalse; exact absurd hfalse (by simp)
            · rintro ⟨_, _, _, _, hrot, _⟩; exact absurd hrot h4
      · rw [if_neg h3]
        constructor
        · intro hfalse; exact absurd hfalse (by simp)
        · rintro ⟨_, _, htype, _⟩; exact absurd htype h3

/-! ## Proxy pool state (src/unnamed/part_003: proxyEntry, ProxyPool) -/

/-- The mutable part of a `proxyEntry` together with its descriptor: the
atomic `healthy` flag and the lock-guarded `lastCheck` / `lastError`
metadata (timestamps abstracted to naturals). -/
structure EntryState where
  proxy : ParsedProxy := { type := "", address := "" }
  healthy : Bool
  lastCheck : Nat
  lastError : String
deriving DecidableEq, Repr

/-- `proxyEntry.setHealthy` (part_003 lines 45-51): store the flag, stamp
`lastCheck` with the current time and record the error string. -/
def EntryState.setHealthy (e : EntryState) (healthy : Bool) (err : String)
    (now : Nat) : EntryState :=
  { e with healthy := healthy, lastCheck := now, lastError := err }

/-- The `ProxyPool` state: entry list, rotation policy string, selection
counter, direct flag. -/
structure Pool where
  entries : List EntryState
  rotation : String
  counter : Nat
  isDirect : Bool
deriving DecidableEq, Repr

/-- A fresh healthy entry as built by `NewProxyPool` (healthy is stored as
true before any check). -/
def newEntry (p : ParsedProxy) : EntryState :=
  { proxy := p, healthy := true, lastCheck := 0, lastError := "" }

/-- The error result of `newProxyTransport` (part_003 lines 507-559): only
the failure behavior is modelled (the constructed `http.Transport` itself is
network configuration); http/https/socks5 require a non-empty address, any
other type is unknown. -/
def newProxyTransportErr (p : ParsedProxy) : Option String :=
  if p.type = "http" ∨ p.type = "https" then
    if p.address = "" then some "proxy address required for http/https proxy" else none
  else if p.type = "socks5" then
    if p.address = "" then some "proxy address required for socks5" else none
  else some ("unknown proxy type: " ++ p.type)

/-- `NewProxyPool` (part_003 lines 71-116): derive descriptors via
`GetProxies`; lowercase the rotation and default it to round-robin; with no
descriptors install a single healthy direct entry and set the direct flag;
otherwise build one transport per descriptor (first failure aborts with a
wrapped error) and start every entry healthy. -/
def NewProxyPool (cfg : ProxyConfig) : Except String Pool :=
  match GetProxies cfg with
  | .error e => .error e
  | .ok proxies =>
    let rot := if lowerStr cfg.rotation = "" then "round-robin" else lowerStr cfg.rotation
    if proxies.isEmpty then
      .ok { entries := [newEntry { type := "direct", address := "direct" }],
            rotation := rot, counter := 0, isDirect := true }
    else
      match proxies.find? (fun p => (newProxyTransportErr p).isSome) with
      | some p =>
        .error ("create transport for " ++ p.type ++ "://" ++ p.address ++ ": "
          ++ ((newProxyTransportErr p).getD ""))
      | none =>
        .ok { entries := proxies.map newEntry, rotation := rot,
              counter := 0, isDirect := false }

/--
Claim C10: there is a configuration accepted by `Config.Validate` on which
pool construction nevertheless fails: with an empty URL list and the legacy
type spelled "Direct", `Validate` succeeds (it lowercases the type), but
`GetProxies` compares the type case-sensitively against "direct", emits a
descriptor of (lowercased) type "direct", and `NewProxyPool` then fails
with an unknown-proxy-type error instead of installing a direct entry.
-/
theorem validate_accepts_but_pool_fails :
    Config.Validate { listen := "0.0.0.0:8080", target := "https://example.com", proxy := { type := "Direct" } } = none ∧
    GetProxies { type := "Direct" } =
      Except.ok [{ type := "direct", address := "", username := "", password := "" }] ∧
    NewProxyPool { type := "Direct" } =
      Except.error "create transport for direct://: unknown proxy type: direct" := by
  refine ⟨rfl, rfl, rfl⟩

/-! ## CORS middleware (src/unnamed/part_000: corsMiddleware, originAllowed) -/

/-- `strings.TrimSpace` over ASCII whitespace, defined on the character
list so that concrete instances evaluate by unfolding. -/
def isSpaceChar (c : Char) : Bool := c == ' ' || c == '\t' || c == '\n' || c == '\r'

def trimStr (s : String) : String :=
  ⟨((s.data.dropWhile isSpaceChar).reverse.dropWhile isSpaceChar).reverse⟩

/-- `strings.EqualFold` (case-insensitive equality; the origin strings the
middleware compares are ASCII). -/
def eqFold (a b : String) : Bool := lowerStr a == lowerStr b

/-- `config.CORSConfig`. -/
structure CORSConfig where
  allowedOrigins : List String := []
  allowedHeaders : List String := []
  allowCredentials : Bool := false
  exposeHeaders : List String := []
  allowMethods : List String := []
  maxAgeSeconds : Int := 0
deriving DecidableEq, Repr

/-- `originAllowed` (part_000 lines 90-103): an empty spec matches nothing;
a spec whose first element is "*" matches anything; otherwise some
whitespace-trimmed spec element must case-insensitively equal the origin. -/
def originAllowed (allowed : List String) (origin : String) : Bool :=
  match allowed with
  | [] => false
  | a0 :: _ => a0 == "*" || allowed.any (fun o => eqFold (trimStr o) origin)

/-- The observable outcome of `corsMiddleware` on one request: the response
headers it sets, the status it writes itself (204 for OPTIONS), and whether
the downstream handler is invoked. -/
structure CORSResult where
  headers : List (String × String)
  status : Option Nat
  reachedNext : Bool
deriving DecidableEq, Repr

/-- The header-setting part of `corsMiddleware` (part_000 lines 29-52). -/
def corsHeaders (cfg : CORSConfig) (origin : String) : List (String × String) :=
  (if originAllowed cfg.allowedOrigins origin then
    (if cfg.allowedOrigins.length = 1 ∧ cfg.allowedOrigins.headD "" = "*" then
      [("Access-Control-Allow-Origin", "*")]
    else if origin ≠ "" then
      [("Access-Control-Allow-Origin", origin)]
    else [])
    ++ (if cfg.allowCredentials then
        [("Access-Control-Allow-Credentials", "true")] else [])
    ++ (if cfg.exposeHeaders.length > 0 then
        [("Access-Control-Expose-Headers", String.intercalate "," cfg.exposeHeaders)] else [])
    ++ (if cfg.allowedHeaders.length > 0 then
        [("Access-Control-Allow-Headers", String.intercalate "," cfg.allowedHeaders)] else [])
    ++ (if cfg.allowMethods.length > 0 then
        [("Access-Control-Allow-Methods", String.intercalate "," cfg.allowMethods)] else [])
  else [])
  ++ (if cfg.maxAgeSeconds > 0 then
      [("Access-Control-Max-Age", toString cfg.maxAgeSeconds)] else [])

/-- `corsMiddleware` (part_000 lines 26-62): set the CORS headers, then
answer OPTIONS with 204 No Content without calling the next handler, and
pass every other method downstream. -/
def corsMiddleware (cfg : CORSConfig) (method origin : String) : CORSResult :=
  let hs := corsHeaders cfg origin
  if method = "OPTIONS" then ⟨hs, some 204, false⟩
  else ⟨hs, none, true⟩

/--
Counterexample to claim C8 as stated: with allowed-origins spec `[""]` and a
request with empty Origin on method GET, the Origin matches the spec (both
by the code's `originAllowed` and by exact match with the spec element), the
spec is not `["*"]`, yet no `Access-Control-Allow-Origin` header is emitted
at all (the code echoes the Origin only when it is non-empty), contradicting
the claimed echo of the request Origin.
-/
theorem cors_empty_origin_counterexample :
    originAllowed [""] "" = true ∧
    ([""] : List String) ≠ ["*"] ∧
    (corsMiddleware { allowedOrigins := [""] } "GET" "").headers.lookup
      "Access-Control-Allow-Origin" = none ∧
    ("Access-Control-Allow-Origin", "") ∉
      (corsMiddleware { allowedOrigins := [""] } "GET" "").headers := by
  refine ⟨rfl, by decide, rfl, by decide⟩

/--
Claim C8 amended: for every request whose Origin matches the
allowed-origins spec, the `Access-Control-Allow-Origin` header is emitted
as the literal "*" exactly when the spec is the one-element list `["*"]`,
and as the echoed request Origin otherwise provided the request Origin is
non-empty (a matching empty Origin yields no such header); and every
OPTIONS request is answered with 204 No Content without reaching the
downstream handler.
-/
theorem cors_matched_origin_headers (cfg : CORSConfig) (method origin : String) :
    (originAllowed cfg.allowedOrigins origin = true →
      (corsMiddleware cfg method origin).headers.lookup "Access-Control-Allow-Origin" =
        (if cfg.allowedOrigins = ["*"] then some "*"
         else if origin = "" then none else some origin)) ∧
    (method = "OPTIONS" →
      (corsMiddleware cfg method origin).status = some 204 ∧
      (corsMiddleware cfg method origin).reachedNext = false) := by
  constructor
  · intro hmatch
    have hstar : (cfg.allowedOrigins.length = 1 ∧ cfg.allowedOrigins.headD "" = "*") ↔
        cfg.allowedOrigins = ["*"] := by
      constructor
      · rintro ⟨hlen, hhead⟩
        match h : cfg.allowedOrigins with
        | [a] => rw [h] at hhead; simp at hhead; rw [hhead]
        | [] => rw [h] at hlen; simp at hlen
        | a :: b :: rest => rw [h] at hlen; simp at hlen
      · intro h; rw [h]; exact ⟨rfl, rfl⟩
    have hdr : (corsMiddleware cfg method origin).headers = corsHeaders cfg origin := by
      rw [corsMiddleware]
      by_cases hm : method = "OPTIONS" <;> simp [hm]
    rw [hdr, corsHeaders, if_pos hmatch]
    by_cases h1 : cfg.allowedOrigins.length = 1 ∧ cfg.allowedOrigins.headD "" = "*"
    · rw [if_pos h1, if_pos (hstar.mp h1)]
      simp [List.lookup]
    · rw [if_neg h1, if_neg (fun hc => h1 (hstar.mpr hc))]
      by_cases h2 : origin = ""
      · rw [if_neg (by simpa using h2), if_pos h2]
        split_ifs <;> simp [List.lookup]
      · rw [if_pos (by simpa using h2), if_neg h2]
        simp [List.lookup]
  · intro hm
    rw [corsMiddleware]
    simp [hm]

/-- Witness for the amended C8 at the spec `["*"]` on an OPTIONS request
with a non-empty Origin. -/
theorem cors_matched_origin_headers_witness :
    (corsMiddleware { allowedOrigins := ["*"] } "OPTIONS" "https://x").headers.lookup
      "Access-Control-Allow-Origin" = some "*" ∧
    (corsMiddleware { allowedOrigins := ["*"] } "OPTIONS" "https://x").status = some 204 ∧
    (corsMiddleware { allowedOrigins := ["*"] } "OPTIONS" "https://x").reachedNext = false := by
  have h := cors_matched_origin_headers { allowedOrigins := ["*"] } "OPTIONS" "https://x"
  refine ⟨?_, (h.2 rfl).1, (h.2 rfl).2⟩
  have h1 := h.1 (by decide)
  simpa using h1

/-! ## Selection (src/unnamed/part_003: selectProxyIndex, nextTransport) -/

/-- `ProxyPool.selectProxyIndex` (part_003 lines 346-364) over a snapshot of
`n` candidate entries: collect the positions not yet tried; with none left
return -1 (here `none`); under "random" rotation draw `rand.Intn(len)`
(modelled by `oracle oIdx % len`, advancing the oracle cursor); in the
default round-robin branch atomically increment the counter and pick
`(counter + 1 - 1) mod len(available)`. Returns the chosen position with
the updated counter and oracle cursor. -/
def selectProxyIndex (rotation : String) (oracle : Nat → Nat)
    (counter oIdx n : Nat) (tried : List Nat) : Option Nat × Nat × Nat :=
  let available := (List.range n).filter (fun i => !tried.contains i)
  if available.length = 0 then (none, counter, oIdx)
  else if rotation = "random" then
    (some (available.getD (oracle oIdx % available.length) 0), counter, oIdx + 1)
  else
    (some (available.getD (counter % available.length) 0), counter + 1, oIdx)

/-- The healthy part of `getHealthyEntries` / `nextTransport` (part_003
lines 325-344 and 397-419): positions of entries whose atomic healthy flag
is set. -/
def healthyIdxsNoFallback (es : List EntryState) : List Nat :=
  (List.range es.length).filter (fun i => ((es[i]?.map EntryState.healthy).getD false))

/-- Healthy snapshot with fallback: when no entry is healthy, the full
entry list is used (empty only when the pool has no entries at all). -/
def healthyIdxs (es : List EntryState) : List Nat :=
  let hs := healthyIdxsNoFallback es
  if hs.isEmpty then List.range es.length else hs

/-- `ProxyPool.nextTransport` (part_003 lines 397-434): healthy snapshot
with fallback; error (`none`) when the pool is empty; a single candidate's
transport is returned directly; otherwise pick by rotation, advancing the
counter only in the round-robin branch. The chosen transport is reported as
its entry's index into `p.entries`. -/
def nextTransport (p : Pool) (oracle : Nat → Nat) : Option Nat × Pool :=
  let cands := healthyIdxs p.entries
  if cands.length = 0 then (none, p)
  else if cands.length = 1 then (some (cands.getD 0 0), p)
  else if p.rotation = "random" then
    (some (cands.getD (oracle 0 % cands.length) 0), p)
  else
    (some (cands.getD (p.counter % cands.length) 0), { p with counter := p.counter + 1 })

theorem filter_not_contains_nil (n : Nat) :
    (List.range n).filter (fun i => !([] : List Nat).contains i) = List.range n := by
  apply List.filter_eq_self.mpr
  intro a _
  rfl

/-- Round-robin selection with nothing tried: choose `counter % n` and
advance the counter. -/
theorem selectProxyIndex_rr_fresh (rotation : String) (oracle : Nat → Nat)
    (counter oIdx n : Nat) (hn : 0 < n) (hrot : rotation ≠ "random") :
    selectProxyIndex rotation oracle counter oIdx n [] =
      (some (counter % n), counter + 1, oIdx) := by
  rw [selectProxyIndex]
  simp only [filter_not_contains_nil, List.length_range]
  rw [if_neg (by omega), if_neg hrot]
  congr 2
  rw [List.getD_eq_getElem _ _ (by simpa using Nat.mod_lt counter hn)]
  simp

/--
Counterexample to claim C6 as stated: in a round-robin pool with two
entries of which exactly one is healthy, `nextTransport` performs a
selection with exactly one candidate available, returns that sole
candidate, but does NOT advance the selection counter (the single-candidate
fast path returns before the counter increment).
-/
theorem nextTransport_single_candidate_counterexample :
    (nextTransport { entries := [{ healthy := true, lastCheck := 0, lastError := "" }, { healthy := false, lastCheck := 0, lastError := "" }], rotation := "round-robin", counter := 5, isDirect := false } (fun _ => 0)).1 = some 0 ∧
    (nextTransport { entries := [{ healthy := true, lastCheck := 0, lastError := "" }, { healthy := false, lastCheck := 0, lastError := "" }], rotation := "round-robin", counter := 5, isDirect := false } (fun _ => 0)).2.counter = 5 ∧
    (5 : Nat) + 1 ≠ 5 := by
  refine ⟨rfl, rfl, by decide⟩

/--
Claim C6 amended: in round-robin mode, a selection by the retry loop's
`selectProxyIndex` with exactly one untried candidate still advances the
counter by one and returns that sole candidate; but `nextTransport`, whose
snapshot holds exactly one healthy candidate, returns that candidate's
transport without advancing the counter.
-/
theorem single_candidate_selection (oracle : Nat → Nat) (counter oIdx : Nat)
    (n i : Nat) (tried : List Nat)
    (havail : (List.range n).filter (fun j => !tried.contains j) = [i])
    (p : Pool) (hrot : p.rotation = "round-robin")
    (hone : (healthyIdxs p.entries).length = 1) :
    selectProxyIndex "round-robin" oracle counter oIdx n tried =
      (some i, counter + 1, oIdx) ∧
    (nextTransport p oracle).1 = some ((healthyIdxs p.entries).getD 0 0) ∧
    (nextTransport p oracle).2 = p := by
  refine ⟨?_, ?_, ?_⟩
  · rw [selectProxyIndex]
    simp only [havail, List.length_singleton]
    rw [if_neg (by omega), if_neg (by decide)]
    simp [Nat.mod_one]
  · rw [nextTransport, if_neg (by omega), if_pos hone]
  · rw [nextTransport, if_neg (by omega), if_pos hone]

/-- Witness for the amended C6: two entries, entry 1 already tried, so entry
0 is the sole untried candidate; and a pool with one healthy entry of two. -/
theorem single_candidate_selection_witness :
    selectProxyIndex "round-robin" (fun _ => 0) 7 0 2 [1] = (some 0, 8, 0) ∧
    (nextTransport { entries := [{ healthy := true, lastCheck := 0, lastError := "" }, { healthy := false, lastCheck := 0, lastError := "" }], rotation := "round-robin", counter := 5, isDirect := false } (fun _ => 0)).1 = some 0 ∧
    (nextTransport { entries := [{ healthy := true, lastCheck := 0, lastError := "" }, { healthy := false, lastCheck := 0, lastError := "" }], rotation := "round-robin", counter := 5, isDirect := false } (fun _ => 0)).2 = { entries := [{ healthy := true, lastCheck := 0, lastError := "" }, { healthy := false, lastCheck := 0, lastError := "" }], rotation := "round-robin", counter := 5, isDirect := false } := by
  have h := single_candidate_selection (fun _ => 0) 7 0 2 0 [1] (by decide)
    { entries := [{ healthy := true, lastCheck := 0, lastError := "" }, { healthy := false, lastCheck := 0, lastError := "" }], rotation := "round-robin", counter := 5, isDirect := false }
    rfl (by decide)
  exact ⟨h.1, h.2.1, h.2.2⟩

/-! ## Dispatch (src/unnamed/part_003: ProxyPool.RoundTrip retry loop) -/

/-- The outcome of a single `entry.transport.RoundTrip(req)` call: a
response (abstracted to an identifier) or an error. -/
inductive RTResult where
  | ok (resp : Nat) : RTResult
  | fail (e : GoErr) : RTResult
deriving DecidableEq, Repr

/-- One attempt of the retry loop: the snapshot position attempted and the
round-trip result observed there. -/
structure Attempt where
  pos : Nat
  res : RTResult
deriving DecidableEq, Repr

/-- The value `RoundTrip` returns: a response or an error. -/
inductive DispatchOut where
  | resp (r : Nat) : DispatchOut
  | err (e : GoErr) : DispatchOut
deriving DecidableEq, Repr

/-- The state threaded through the retry loop: the pool's entry states (the
loop mutates entries through the snapshot's pointers), the `tried` set (as
the list of positions in selection order), the selection counter, the
random-oracle cursor, the `lastErr` variable, and the trace of attempts
performed so far. -/
structure LoopSt where
  es : List EntryState
  tried : List Nat
  counter : Nat
  oIdx : Nat
  lastErr : Option GoErr
  trace : List Attempt
deriving Repr

/-- `fmt.Errorf("all proxies failed: %w", lastErr)`. -/
def allProxiesFailed (lastErr : Option GoErr) : GoErr :=
  .wrapped "all proxies failed" (lastErr.getD (.basic "nil"))

/-- `entry.setHealthy(false, err)` reached through the snapshot: update the
pool entry at index `j`. -/
def markEntryUnhealthy (es : List EntryState) (j : Nat) (msg : String)
    (now : Nat) : List EntryState :=
  match es[j]? with
  | some e => es.set j (e.setHealthy false msg now)
  | none => es

/-- The retry loop of `ProxyPool.RoundTrip` (part_003 lines 279-320) over
the healthy snapshot `cand` (a list of indices into the pool's entries).
`outcome i` is the result of `entries[i].transport.RoundTrip(req)` for
position `i` in the snapshot (each position is attempted at most once per
dispatch, so one outcome per position suffices). The loop runs while
`len(tried) < len(entries)`; `fuel` only bounds the recursion and is chosen
large enough that the loop condition, not the fuel, ends the loop. A `nil`
error from an attempt returns the response; a non-timeout error is returned
as-is with no state change; a timeout marks the snapshot entry unhealthy
with the error message and continues; exhaustion returns the wrapped
all-proxies-failed error. -/
def loopGo (outcome : Nat → RTResult) (oracle : Nat → Nat) (now : Nat)
    (rotation : String) (cand : List Nat) :
    Nat → LoopSt → DispatchOut × LoopSt
  | 0, st => (.err (allProxiesFailed st.lastErr), st)
  | fuel + 1, st =>
    if st.tried.length < cand.length then
      match selectProxyIndex rotation oracle st.counter st.oIdx cand.length st.tried with
      | (none, c', o') =>
        (.err (allProxiesFailed st.lastErr), { st with counter := c', oIdx := o' })
      | (some idx, c', o') =>
        let st1 : LoopSt :=
          { st with tried := st.tried ++ [idx], counter := c', oIdx := o' }
        match outcome idx with
        | .ok r => (.resp r, { st1 with trace := st1.trace ++ [⟨idx, .ok r⟩] })
        | .fail e =>
          let st2 : LoopSt :=
            { st1 with trace := st1.trace ++ [⟨idx, .fail e⟩], lastErr := some e }
          if isTimeoutError e then
            loopGo outcome oracle now rotation cand fuel
              { st2 with
                es := markEntryUnhealthy st2.es (cand.getD idx 0) e.message now }
          else (.err e, st2)
    else (.err (allProxiesFailed st.lastErr), st)

/-- The result of one dispatch: the returned value, the pool afterwards
(health metadata and counter may have changed), and the attempt trace. -/
structure DispatchResult where
  out : DispatchOut
  pool : Pool
  trace : List Attempt

/-- `ProxyPool.RoundTrip` (part_003 lines 256-323): healthy snapshot with
fallback; error on an empty pool; with a single candidate or a direct pool
delegate once with no retry (the body buffering of steps 268-277 is I/O on
the request object and is not part of the dispatch state). Otherwise run
the retry loop starting from an empty tried set. -/
def PoolRoundTrip (p : Pool) (outcome : Nat → RTResult) (oracle : Nat → Nat)
    (now : Nat) : DispatchResult :=
  let cand := healthyIdxs p.entries
  if cand.length = 0 then ⟨.err (.basic "no proxies available"), p, []⟩
  else if cand.length = 1 ∨ p.isDirect = true then
    match outcome 0 with
    | .ok r => ⟨.resp r, p, [⟨0, .ok r⟩]⟩
    | .fail e => ⟨.err e, p, [⟨0, .fail e⟩]⟩
  else
    let r := loopGo outcome oracle now p.rotation cand (cand.length + 1)
      ⟨p.entries, [], p.counter, 0, none, []⟩
    ⟨r.1, { p with entries := r.2.es, counter := r.2.counter }, r.2.trace⟩

/-! ## Round-robin fairness (claim C4) -/

/-- Counting residues: among `k * n` consecutive naturals starting at 0,
each residue below `n` occurs exactly `k` times. -/
theorem count_mod_range (n k j : Nat) (hj : j < n) :
    ((List.range (k * n)).map (fun i => i % n)).count j = k := by
  induction k with
  | zero => simp
  | succ k ih =>
    have hkn : (k + 1) * n = k * n + n := by ring
    rw [hkn, List.range_add, List.map_append, List.count_append, ih]
    have hmap : (List.range n).map (fun i => (k * n + i) % n) = List.range n := by
      have hpt : ∀ i ∈ List.range n, (k * n + i) % n = i := by
        intro i hi
        rw [List.mem_range] at hi
        rw [Nat.add_comm, Nat.add_mul_mod_self_right]
        exact Nat.mod_eq_of_lt hi
      calc (List.range n).map (fun i => (k * n + i) % n)
          = (List.range n).map (fun i => i) := List.map_congr_left hpt
        _ = List.range n := List.map_id' _
    rw [List.map_map]
    have hcomp : ((fun i => i % n) ∘ (fun x => k * n + x)) =
        (fun i => (k * n + i) % n) := rfl
    rw [hcomp, hmap]
    rw [List.count_eq_one_of_mem (List.nodup_range n) (List.mem_range.mpr hj)]

/-- The sequence of first selections made by `m` consecutive dispatches:
each dispatch's retry loop starts from an empty tried set and, when its
first attempt succeeds, performs exactly one selection; the counter
persists in the pool across requests. -/
def selectSeq (rotation : String) (oracle : Nat → Nat) (n : Nat) :
    Nat → Nat → List Nat
  | 0, _ => []
  | m + 1, counter =>
    match selectProxyIndex rotation oracle counter 0 n [] with
    | (some i, c', _) => i :: selectSeq rotation oracle n m c'
    | (none, _, _) => []

theorem selectSeq_rr (oracle : Nat → Nat) (n : Nat) (hn : 0 < n) :
    ∀ (m counter : Nat),
      selectSeq "round-robin" oracle n m counter =
        (List.range m).map (fun i => (counter + i) % n) := by
  intro m
  induction m with
  | zero => intro counter; rfl
  | succ m ih =>
    intro counter
    rw [selectSeq]
    rw [selectProxyIndex_rr_fresh "round-robin" oracle counter 0 n hn (by decide)]
    show (counter % n) :: selectSeq "round-robin" oracle n m (counter + 1) = _
    rw [ih (counter + 1)]
    rw [List.range_succ_eq_map, List.map_cons, List.map_map]
    rw [Nat.add_zero]
    congr 1
    apply List.map_congr_left
    intro a _
    have : counter + 1 + a = counter + Nat.succ a := by omega
    simp [Function.comp, this]

/-- A round-robin dispatch whose first attempt succeeds performs exactly
one selection, at position `counter % n`, and advances the counter by one
with no other pool change. -/
theorem roundTrip_rr_first_success (p : Pool) (outcome : Nat → RTResult)
    (oracle : Nat → Nat) (now r : Nat)
    (hn : 2 ≤ (healthyIdxs p.entries).length) (hd : p.isDirect = false)
    (hrot : p.rotation = "round-robin")
    (hout : outcome (p.counter % (healthyIdxs p.entries).length) = .ok r) :
    PoolRoundTrip p outcome oracle now =
      ⟨.resp r, { p with counter := p.counter + 1 },
        [⟨p.counter % (healthyIdxs p.entries).length, .ok r⟩]⟩ := by
  have hsel := selectProxyIndex_rr_fresh p.rotation oracle p.counter 0
    (healthyIdxs p.entries).length (by omega) (by rw [hrot]; decide)
  rw [PoolRoundTrip]
  rw [if_neg (by omega)]
  rw [if_neg (by push_neg; exact ⟨by omega, by simp [hd]⟩)]
  rw [loopGo]
  simp only [List.length_nil, hsel, hout]
  rw [if_pos (by omega)]
  simp only [List.nil_append]

/--
Claim C4: under round-robin rotation with N ≥ 2 healthy entries, no health
changes, and the selection counter starting at zero, k·N consecutive
selections choose each entry exactly k times, in insertion order; in
particular with three healthy proxies six sequential requests select
positions 0,1,2,0,1,2 (p1,p2,p3,p1,p2,p3). Each successful round-robin
dispatch performs exactly the selection `counter % N` and advances the
counter by one, so consecutive requests realize consecutive selections.
-/
theorem roundRobin_fairness (oracle : Nat → Nat) (n k : Nat) (hn : 2 ≤ n) :
    (∀ j < n, (selectSeq "round-robin" oracle n (k * n) 0).count j = k) ∧
    selectSeq "round-robin" oracle 3 6 0 = [0, 1, 2, 0, 1, 2] ∧
    (∀ (p : Pool) (outcome : Nat → RTResult) (now r : Nat),
      2 ≤ (healthyIdxs p.entries).length → p.isDirect = false →
      p.rotation = "round-robin" →
      outcome (p.counter % (healthyIdxs p.entries).length) = .ok r →
      PoolRoundTrip p outcome oracle now =
        ⟨.resp r, { p with counter := p.counter + 1 },
          [⟨p.counter % (healthyIdxs p.entries).length, .ok r⟩]⟩) := by
  refine ⟨?_, ?_, ?_⟩
  · intro j hj
    rw [selectSeq_rr oracle n (by omega)]
    have : (List.range (k * n)).map (fun i => (0 + i) % n) =
        (List.range (k * n)).map (fun i => i % n) := by
      apply List.map_congr_left
      intro a _
      rw [Nat.zero_add]
    rw [this]
    exact count_mod_range n k j hj
  · rw [selectSeq_rr oracle 3 (by omega)]
    decide
  · intro p outcome now r h1 h2 h3 h4
    exact roundTrip_rr_first_success p outcome oracle now r h1 h2 h3 h4

/-- Witness for C4 at N = 3, k = 2, entry index 1, and one concrete
successful dispatch against a three-entry healthy round-robin pool. -/
theorem roundRobin_fairness_witness :
    (selectSeq "round-robin" (fun _ => 0) 3 (2 * 3) 0).count 1 = 2 ∧
    selectSeq "round-robin" (fun _ => 0) 3 6 0 = [0, 1, 2, 0, 1, 2] ∧
    PoolRoundTrip { entries := [newEntry { type := "socks5", address := "p1:1080" }, newEntry { type := "http", address := "p2:8080" }, newEntry { type := "https", address := "p3:443" }], rotation := "round-robin", counter := 0, isDirect := false } (fun _ => .ok 42) (fun _ => 0) 0 =
      ⟨.resp 42, { entries := [newEntry { type := "socks5", address := "p1:1080" }, newEntry { type := "http", address := "p2:8080" }, newEntry { type := "https", address := "p3:443" }], rotation := "round-robin", counter := 1, isDirect := false }, [⟨0, .ok 42⟩]⟩ := by
  have h := roundRobin_fairness (fun _ => 0) 3 2 (by decide)
  refine ⟨h.1 1 (by decide), h.2.1, ?_⟩
  have h3 := h.2.2 { entries := [newEntry { type := "socks5", address := "p1:1080" }, newEntry { type := "http", address := "p2:8080" }, newEntry { type := "https", address := "p3:443" }], rotation := "round-robin", counter := 0, isDirect := false } (fun _ => .ok 42) 0 42 (by decide) rfl rfl rfl
  simpa using h3

/-! ## Retry-loop lemmas (claims C1, C3, C9) -/

theorem markEntryUnhealthy_getElem?_ne (es : List EntryState) (j j' : Nat)
    (msg : String) (now : Nat) (h : j' ≠ j) :
    (markEntryUnhealthy es j msg now)[j']? = es[j']? := by
  rw [markEntryUnhealthy]
  cases hj : es[j]? with
  | none => rfl
  | some e => exact List.getElem?_set_ne (fun hc => h hc.symm)

theorem markEntryUnhealthy_getElem?_self (es : List EntryState) (j : Nat)
    (msg : String) (now : Nat) (h : j < es.length) :
    (markEntryUnhealthy es j msg now)[j]? =
      (es[j]?).map (fun e => e.setHealthy false msg now) := by
  rw [markEntryUnhealthy]
  rw [List.getElem?_eq_getElem h]
  simp only [Option.map_some']
  exact List.getElem?_set_self h

/-- When the tried set is smaller than the candidate count,
`selectProxyIndex` always yields an in-range, untried position. -/
theorem selectProxyIndex_mem (rotation : String) (oracle : Nat → Nat)
    (counter oIdx n : Nat) (tried : List Nat) (h : tried.length < n) :
    ∃ idx c' o',
      selectProxyIndex rotation oracle counter oIdx n tried = (some idx, c', o') ∧
      idx < n ∧ idx ∉ tried := by
  rw [selectProxyIndex]
  have hmem : ∀ i, i ∈ (List.range n).filter (fun i => !tried.contains i) ↔
      i < n ∧ i ∉ tried := by
    intro i
    rw [List.mem_filter, List.mem_range]
    simp
  have hne : ((List.range n).filter (fun i => !tried.contains i)).length ≠ 0 := by
    intro h0
    rw [List.length_eq_zero] at h0
    have hsub : List.range n ⊆ tried := by
      intro i hi
      by_contra hni
      have hin : i ∈ (List.range n).filter (fun i => !tried.contains i) :=
        (hmem i).mpr ⟨List.mem_range.mp hi, hni⟩
      rw [h0] at hin
      exact absurd hin (List.not_mem_nil i)
    have hlen := (List.subperm_of_subset (List.nodup_range n) hsub).length_le
    rw [List.length_range] at hlen
    omega
  have hpos : 0 < ((List.range n).filter (fun i => !tried.contains i)).length :=
    Nat.pos_of_ne_zero hne
  rw [if_neg hne]
  by_cases hr : rotation = "random"
  · rw [if_pos hr]
    have hin : ((List.range n).filter (fun i => !tried.contains i)).getD
        (oracle oIdx % ((List.range n).filter (fun i => !tried.contains i)).length) 0 ∈
        (List.range n).filter (fun i => !tried.contains i) := by
      rw [List.getD_eq_getElem _ _ (Nat.mod_lt _ hpos)]
      exact List.getElem_mem _
    obtain ⟨h1, h2⟩ := (hmem _).mp hin
    exact ⟨_, _, _, rfl, h1, h2⟩
  · rw [if_neg hr]
    have hin : ((List.range n).filter (fun i => !tried.contains i)).getD
        (counter % ((List.range n).filter (fun i => !tried.contains i)).length) 0 ∈
        (List.range n).filter (fun i => !tried.contains i) := by
      rw [List.getD_eq_getElem _ _ (Nat.mod_lt _ hpos)]
      exact List.getElem_mem _
    obtain ⟨h1, h2⟩ := (hmem _).mp hin
    exact ⟨_, _, _, rfl, h1, h2⟩

/-- Master characterization of the retry loop, relative to the starting
state: the loop appends a suffix of attempts to the trace and tried list;
every attempted position is in range, fresh, attempted at most once, with
the attempt recording that position's outcome; every attempt except
possibly the last failed with a timeout; entry states change only at pool
indices belonging to snapshot positions that failed with a timeout; and the
returned value is determined by the last attempt (its response; its
non-timeout error as-is; or the wrapped all-proxies-failed error when every
attempt timed out). -/
theorem loopGo_master (outcome : Nat → RTResult) (oracle : Nat → Nat)
    (now : Nat) (rotation : String) (cand : List Nat) :
    ∀ (fuel : Nat) (st : LoopSt) (out : DispatchOut) (st' : LoopSt),
      loopGo outcome oracle now rotation cand fuel st = (out, st') →
      ∃ suf : List Attempt,
        st'.trace = st.trace ++ suf ∧
        st'.tried = st.tried ++ suf.map Attempt.pos ∧
        (∀ a ∈ suf, a.pos < cand.length ∧ a.pos ∉ st.tried ∧ outcome a.pos = a.res) ∧
        (suf.map Attempt.pos).Nodup ∧
        (∀ a ∈ suf.dropLast, ∃ e, a.res = .fail e ∧ isTimeoutError e = true) ∧
        (∀ j, st'.es[j]? = st.es[j]? ∨
          ∃ a, a ∈ suf ∧ ∃ e, a.res = .fail e ∧ isTimeoutError e = true ∧
            cand.getD a.pos 0 = j) ∧
        ((∃ r a, out = .resp r ∧ suf.getLast? = some a ∧ a.res = .ok r) ∨
         (∃ e a, out = .err e ∧ suf.getLast? = some a ∧ a.res = .fail e ∧
            isTimeoutError e = false) ∨
         (∃ le, out = .err (allProxiesFailed le) ∧
            ∀ a ∈ suf, ∃ e, a.res = .fail e ∧ isTimeoutError e = true)) := by
  intro fuel
  induction fuel with
  | zero =>
    intro st out st' heq
    rw [loopGo] at heq
    rw [Prod.mk.injEq] at heq
    obtain ⟨h1, h2⟩ := heq
    subst h1; subst h2
    refine ⟨[], by simp, by simp, by simp, by simp, by simp,
      fun j => Or.inl rfl, ?_⟩
    exact Or.inr (Or.inr ⟨st.lastErr, rfl, by simp⟩)
  | succ fuel ih =>
    intro st out st' heq
    rw [loopGo] at heq
    by_cases hlt : st.tried.length < cand.length
    · rw [if_pos hlt] at heq
      obtain ⟨idx, c', o', hsel, hidx, hfresh⟩ :=
        selectProxyIndex_mem rotation oracle st.counter st.oIdx cand.length st.tried hlt
      rw [hsel] at heq
      dsimp only at heq
      cases hout : outcome idx with
      | ok r =>
        rw [hout] at heq
        dsimp only at heq
        rw [Prod.mk.injEq] at heq
        obtain ⟨h1, h2⟩ := heq
        subst h1; subst h2
        refine ⟨[⟨idx, .ok r⟩], by simp, by simp, ?_, by simp, by simp,
          fun j => Or.inl rfl, ?_⟩
        · intro a ha
          rw [List.mem_singleton] at ha
          subst ha
          exact ⟨hidx, hfresh, hout⟩
        · exact Or.inl ⟨r, ⟨idx, .ok r⟩, rfl, rfl, rfl⟩
      | fail e =>
        rw [hout] at heq
        dsimp only at heq
        by_cases hto : isTimeoutError e = true
        · rw [if_pos hto] at heq
          obtain ⟨sufI, i1, i2, i3, i4, i5, i6, i7⟩ := ih _ _ _ heq
          refine ⟨⟨idx, .fail e⟩ :: sufI, ?_, ?_, ?_, ?_, ?_, ?_, ?_⟩
          · rw [i1]; simp
          · rw [i2]; simp
          · intro a ha
            rcases List.mem_cons.mp ha with ha | ha
            · subst ha; exact ⟨hidx, hfresh, hout⟩
            · obtain ⟨g1, g2, g3⟩ := i3 a ha
              refine ⟨g1, ?_, g3⟩
              intro hc
              apply g2
              simp only [List.mem_append]
              exact Or.inl hc
          · rw [List.map_cons, List.nodup_cons]
            refine ⟨?_, i4⟩
            intro hc
            rw [List.mem_map] at hc
            obtain ⟨a, ha, hpa⟩ := hc
            obtain ⟨_, g2, _⟩ := i3 a ha
            apply g2
            simp [hpa]
          · intro a ha
            cases sufI with
            | nil => simp at ha
            | cons b l =>
              rw [List.dropLast_cons₂] at ha
              rcases List.mem_cons.mp ha with ha | ha
              · subst ha; exact ⟨e, rfl, hto⟩
              · exact i5 a ha
          · intro j
            rcases i6 j with h6 | ⟨a, ha, e', he1, he2, he3⟩
            · by_cases hj : j = cand.getD idx 0
              · subst hj
                exact Or.inr ⟨⟨idx, .fail e⟩, List.mem_cons_self _ _,
                  e, rfl, hto, rfl⟩
              · left
                rw [h6]
                exact markEntryUnhealthy_getElem?_ne st.es (cand.getD idx 0) j
                  e.message now hj
            · exact Or.inr ⟨a, List.mem_cons_of_mem _ ha, e', he1, he2, he3⟩
          · rcases i7 with ⟨r, a, g1, g2, g3⟩ | ⟨e0, a, g1, g2, g3, g4⟩ |
              ⟨le, g1, g2⟩
            · left
              refine ⟨r, a, g1, ?_, g3⟩
              cases sufI with
              | nil => simp at g2
              | cons b l => rw [List.getLast?_cons_cons]; exact g2
            · right; left
              refine ⟨e0, a, g1, ?_, g3, g4⟩
              cases sufI with
              | nil => simp at g2
              | cons b l => rw [List.getLast?_cons_cons]; exact g2
            · right; right
              refine ⟨le, g1, ?_⟩
              intro a ha
              rcases List.mem_cons.mp ha with ha | ha
              · subst ha; exact ⟨e, rfl, hto⟩
              · exact g2 a ha
        · rw [if_neg hto] at heq
          rw [Prod.mk.injEq] at heq
          obtain ⟨h1, h2⟩ := heq
          subst h1; subst h2
          refine ⟨[⟨idx, .fail e⟩], by simp, by simp, ?_, by simp, by simp,
            fun j => Or.inl rfl, ?_⟩
          · intro a ha
            rw [List.mem_singleton] at ha
            subst ha
            exact ⟨hidx, hfresh, hout⟩
          · right; left
            exact ⟨e, ⟨idx, .fail e⟩, rfl, rfl, rfl, by simpa using hto⟩
    · rw [if_neg hlt] at heq
      rw [Prod.mk.injEq] at heq
      obtain ⟨h1, h2⟩ := heq
      subst h1; subst h2
      refine ⟨[], by simp, by simp, by simp, by simp, by simp,
        fun j => Or.inl rfl, ?_⟩
      exact Or.inr (Or.inr ⟨st.lastErr, rfl, by simp⟩)

theorem healthyIdxs_nodup (es : List EntryState) : (healthyIdxs es).Nodup := by
  rw [healthyIdxs]
  by_cases h : (healthyIdxsNoFallback es).isEmpty
  · simp only [h, if_pos]
    exact List.nodup_range es.length
  · simp only [h, if_neg, Bool.false_eq_true, not_false_eq_true]
    exact (List.nodup_range es.length).filter _

theorem nodup_getD_inj (l : List Nat) (hn : l.Nodup) {i j : Nat}
    (hi : i < l.length) (hj : j < l.length) (h : l.getD i 0 = l.getD j 0) :
    i = j := by
  rw [List.getD_eq_getElem _ _ hi, List.getD_eq_getElem _ _ hj] at h
  exact (hn.getElem_inj_iff).mp h

/--
Claim C1: in a dispatch over at least two candidate entries, when an
attempt of the retry loop fails with an error not classified as a timeout,
`RoundTrip` returns that error unchanged (not wrapped) and tries no further
entries (the failing attempt is the last one in the trace), regardless of
how many untried candidates remain.
-/
theorem roundTrip_nontimeout_first_failure (p : Pool)
    (outcome : Nat → RTResult) (oracle : Nat → Nat) (now : Nat)
    (hn : 2 ≤ (healthyIdxs p.entries).length) (hd : p.isDirect = false)
    (a : Attempt) (e : GoErr)
    (hmem : a ∈ (PoolRoundTrip p outcome oracle now).trace)
    (hres : a.res = .fail e) (hto : isTimeoutError e = false) :
    (PoolRoundTrip p outcome oracle now).out = .err e ∧
    (PoolRoundTrip p outcome oracle now).trace.getLast? = some a := by
  rcases hr : loopGo outcome oracle now p.rotation (healthyIdxs p.entries)
      ((healthyIdxs p.entries).length + 1)
      ⟨p.entries, [], p.counter, 0, none, []⟩ with ⟨out, st'⟩
  have hPR : PoolRoundTrip p outcome oracle now =
      ⟨out, { p with entries := st'.es, counter := st'.counter }, st'.trace⟩ := by
    rw [PoolRoundTrip]
    rw [if_neg (by omega), if_neg (by push_neg; exact ⟨by omega, by simp [hd]⟩)]
    rw [hr]
  rw [hPR] at hmem ⊢
  dsimp only at hmem ⊢
  obtain ⟨suf, m1, m2, m3, m4, m5, m6, m7⟩ := loopGo_master _ _ _ _ _ _ _ _ _ hr
  dsimp only at m1
  rw [List.nil_append] at m1
  rw [m1] at hmem ⊢
  have hne : suf ≠ [] := by
    intro hc
    rw [hc] at hmem
    exact absurd hmem (List.not_mem_nil a)
  have halast : a = suf.getLast hne := by
    have hsplit := List.dropLast_append_getLast hne
    rw [← hsplit] at hmem
    rcases List.mem_append.mp hmem with h | h
    · obtain ⟨e', he1, he2⟩ := m5 a h
      rw [hres] at he1
      injection he1 with he
      subst he
      rw [hto] at he2
      exact Bool.noConfusion he2
    · simpa using h
  have hlast : suf.getLast? = some a := by
    rw [halast]
    exact List.getLast?_eq_getLast suf hne
  rcases m7 with ⟨r, a', g1, g2, g3⟩ | ⟨e0, a', g1, g2, g3, g4⟩ | ⟨le, g1, g2⟩
  · rw [hlast] at g2
    injection g2 with g2
    subst g2
    rw [hres] at g3
    exact RTResult.noConfusion g3
  · rw [hlast] at g2
    injection g2 with g2
    subst g2
    rw [hres] at g3
    injection g3 with g3
    subst g3
    exact ⟨g1, hlast⟩
  · obtain ⟨e', he1, he2⟩ := g2 a hmem
    rw [hres] at he1
    injection he1 with he
    subst he
    rw [hto] at he2
    exact Bool.noConfusion he2

/-- The classifier evaluated on the plain connection error (provable
through the chain characterization; the classifier itself is defined by
well-founded recursion and does not reduce definitionally). -/
theorem isTimeoutError_basic_eval (m : String) :
    isTimeoutError (.basic m) = false := by
  rw [isTimeoutError_eq_chain]; rfl

/-- The classifier evaluated on the context deadline sentinel. -/
theorem isTimeoutError_ctx_eval : isTimeoutError .ctxDeadline = true := by
  rw [isTimeoutError_eq_chain]; rfl

/-- Concrete dispatch evaluation: two healthy entries, round-robin from
counter 0, every transport failing with a plain (non-timeout) connection
error; the loop attempts position 0 and returns its error as-is. -/
theorem dispatch_eval_nontimeout :
    PoolRoundTrip { entries := [newEntry { type := "socks5", address := "p1:1080" }, newEntry { type := "http", address := "p2:8080" }], rotation := "round-robin", counter := 0, isDirect := false } (fun _ => .fail (.basic "connection refused")) (fun _ => 0) 0 =
      ⟨.err (.basic "connection refused"), { entries := [newEntry { type := "socks5", address := "p1:1080" }, newEntry { type := "http", address := "p2:8080" }], rotation := "round-robin", counter := 1, isDirect := false }, [⟨0, .fail (.basic "connection refused")⟩]⟩ := by
  rw [PoolRoundTrip]
  rw [if_neg (by decide), if_neg (by decide)]
  rw [loopGo]
  rw [if_pos (by decide)]
  rw [show selectProxyIndex "round-robin" (fun _ => 0) 0 0
      (healthyIdxs [newEntry { type := "socks5", address := "p1:1080" }, newEntry { type := "http", address := "p2:8080" }]).length [] = (some 0, 1, 0) from by decide]
  dsimp only
  rw [if_neg (by rw [isTimeoutError_basic_eval]; exact Bool.false_ne_true)]
  rfl

/-- Witness for C1: two healthy entries, the first attempt fails with a
non-timeout connection error; the error is returned as-is and the trace
ends at that attempt. -/
theorem roundTrip_nontimeout_first_failure_witness :
    (PoolRoundTrip { entries := [newEntry { type := "socks5", address := "p1:1080" }, newEntry { type := "http", address := "p2:8080" }], rotation := "round-robin", counter := 0, isDirect := false } (fun _ => .fail (.basic "connection refused")) (fun _ => 0) 0).out = .err (.basic "connection refused") ∧
    (PoolRoundTrip { entries := [newEntry { type := "socks5", address := "p1:1080" }, newEntry { type := "http", address := "p2:8080" }], rotation := "round-robin", counter := 0, isDirect := false } (fun _ => .fail (.basic "connection refused")) (fun _ => 0) 0).trace.getLast? = some ⟨0, .fail (.basic "connection refused")⟩ := by
  exact roundTrip_nontimeout_first_failure _ _ _ _ (by decide) rfl
    ⟨0, .fail (.basic "connection refused")⟩ (.basic "connection refused")
    (by rw [dispatch_eval_nontimeout]; decide) rfl (isTimeoutError_basic_eval _)

/--
Claim C9: when a dispatch attempt fails with a non-timeout error, the
attempted entry's health metadata is left completely unchanged — its
healthy flag (true for a snapshot entry selected as healthy), `lastCheck`
and `lastError` keep their prior values; and only timeout failures modify
health metadata during dispatch: every pool entry whose state changed
belongs to a snapshot position attempted with a timeout failure.
-/
theorem roundTrip_nontimeout_frame (p : Pool)
    (outcome : Nat → RTResult) (oracle : Nat → Nat) (now : Nat)
    (hn : 2 ≤ (healthyIdxs p.entries).length) (hd : p.isDirect = false)
    (a : Attempt) (e : GoErr)
    (hmem : a ∈ (PoolRoundTrip p outcome oracle now).trace)
    (hres : a.res = .fail e) (hto : isTimeoutError e = false) :
    (PoolRoundTrip p outcome oracle
        now).pool.entries[(healthyIdxs p.entries).getD a.pos 0]? =
      p.entries[(healthyIdxs p.entries).getD a.pos 0]? ∧
    (∀ j, (PoolRoundTrip p outcome oracle now).pool.entries[j]? ≠ p.entries[j]? →
      ∃ a', a' ∈ (PoolRoundTrip p outcome oracle now).trace ∧ ∃ e',
        a'.res = .fail e' ∧ isTimeoutError e' = true ∧
        (healthyIdxs p.entries).getD a'.pos 0 = j) := by
  rcases hr : loopGo outcome oracle now p.rotation (healthyIdxs p.entries)
      ((healthyIdxs p.entries).length + 1)
      ⟨p.entries, [], p.counter, 0, none, []⟩ with ⟨out, st'⟩
  have hPR : PoolRoundTrip p outcome oracle now =
      ⟨out, { p with entries := st'.es, counter := st'.counter }, st'.trace⟩ := by
    rw [PoolRoundTrip]
    rw [if_neg (by omega), if_neg (by push_neg; exact ⟨by omega, by simp [hd]⟩)]
    rw [hr]
  rw [hPR] at hmem ⊢
  dsimp only at hmem ⊢
  obtain ⟨suf, m1, m2, m3, m4, m5, m6, m7⟩ := loopGo_master _ _ _ _ _ _ _ _ _ hr
  dsimp only at m1 m3 m6
  rw [List.nil_append] at m1
  rw [m1] at hmem ⊢
  constructor
  · rcases m6 ((healthyIdxs p.entries).getD a.pos 0) with h6 | ⟨a', ha', e', he1, he2, he3⟩
    · exact h6
    · obtain ⟨hap, _, _⟩ := m3 a hmem
      obtain ⟨hap', _, _⟩ := m3 a' ha'
      have hpos : a'.pos = a.pos :=
        nodup_getD_inj (healthyIdxs p.entries) (healthyIdxs_nodup p.entries)
          hap' hap he3
      have haa : a' = a :=
        List.inj_on_of_nodup_map m4 ha' hmem hpos
      subst haa
      rw [hres] at he1
      injection he1 with he
      subst he
      rw [hto] at he2
      exact Bool.noConfusion he2
  · intro j hj
    rcases m6 j with h6 | ⟨a', ha', e', he1, he2, he3⟩
    · exact absurd h6 hj
    · exact ⟨a', ha', e', he1, he2, he3⟩

/-- Witness for C9 on the concrete non-timeout dispatch: the attempted
entry's state is unchanged and any changed entry would stem from a timeout
attempt. -/
theorem roundTrip_nontimeout_frame_witness :
    (PoolRoundTrip { entries := [newEntry { type := "socks5", address := "p1:1080" }, newEntry { type := "http", address := "p2:8080" }], rotation := "round-robin", counter := 0, isDirect := false } (fun _ => .fail (.basic "connection refused")) (fun _ => 0) 0).pool.entries[(healthyIdxs [newEntry { type := "socks5", address := "p1:1080" }, newEntry { type := "http", address := "p2:8080" }]).getD 0 0]? =
      [newEntry { type := "socks5", address := "p1:1080" }, newEntry { type := "http", address := "p2:8080" }][(healthyIdxs [newEntry { type := "socks5", address := "p1:1080" }, newEntry { type := "http", address := "p2:8080" }]).getD 0 0]? ∧
    (∀ j, (PoolRoundTrip { entries := [newEntry { type := "socks5", address := "p1:1080" }, newEntry { type := "http", address := "p2:8080" }], rotation := "round-robin", counter := 0, isDirect := false } (fun _ => .fail (.basic "connection refused")) (fun _ => 0) 0).pool.entries[j]? ≠ [newEntry { type := "socks5", address := "p1:1080" }, newEntry { type := "http", address := "p2:8080" }][j]? →
      ∃ a', a' ∈ (PoolRoundTrip { entries := [newEntry { type := "socks5", address := "p1:1080" }, newEntry { type := "http", address := "p2:8080" }], rotation := "round-robin", counter := 0, isDirect := false } (fun _ => .fail (.basic "connection refused")) (fun _ => 0) 0).trace ∧ ∃ e',
        a'.res = .fail e' ∧ isTimeoutError e' = true ∧
        (healthyIdxs [newEntry { type := "socks5", address := "p1:1080" }, newEntry { type := "http", address := "p2:8080" }]).getD a'.pos 0 = j) := by
  exact roundTrip_nontimeout_frame _ _ _ _ (by decide) rfl
    ⟨0, .fail (.basic "connection refused")⟩ (.basic "connection refused")
    (by rw [dispatch_eval_nontimeout]; decide) rfl (isTimeoutError_basic_eval _)

/-- When every snapshot position's outcome is a timeout failure, the retry
loop tries every position exactly once, records each failure in the trace
and in the entry states, and ends with the wrapped all-proxies-failed
error carrying the last attempt's error. Stated as an invariant over the
loop state and proved by induction on the fuel. -/
theorem loopGo_all_timeouts (outcome : Nat → RTResult) (oracle : Nat → Nat)
    (now : Nat) (rotation : String) (cand : List Nat) (errFn : Nat → GoErr)
    (init : List EntryState)
    (hcand : cand.Nodup)
    (hout : ∀ i < cand.length, outcome i = .fail (errFn i))
    (hto : ∀ i < cand.length, isTimeoutError (errFn i) = true) :
    ∀ (fuel : Nat) (st : LoopSt),
      cand.length ≤ fuel + st.tried.length →
      st.tried.Nodup →
      (∀ i ∈ st.tried, i < cand.length) →
      st.trace = st.tried.map (fun i => (⟨i, .fail (errFn i)⟩ : Attempt)) →
      st.lastErr = st.tried.getLast?.map errFn →
      (∀ i ∈ st.tried, st.es[cand.getD i 0]? =
        (init[cand.getD i 0]?).map
          (fun en => en.setHealthy false (errFn i).message now)) →
      (∀ j, (∀ i ∈ st.tried, cand.getD i 0 ≠ j) → st.es[j]? = init[j]?) →
      ((loopGo outcome oracle now rotation cand fuel st).2.tried.Nodup ∧
       (loopGo outcome oracle now rotation cand fuel st).2.tried.length =
         cand.length ∧
       (loopGo outcome oracle now rotation cand fuel st).2.trace =
         (loopGo outcome oracle now rotation cand fuel st).2.tried.map
           (fun i => (⟨i, .fail (errFn i)⟩ : Attempt)) ∧
       (loopGo outcome oracle now rotation cand fuel st).1 =
         .err (allProxiesFailed
           (((loopGo outcome oracle now rotation cand fuel
             st).2.tried.getLast?).map errFn)) ∧
       (∀ i < cand.length,
         (loopGo outcome oracle now rotation cand fuel
             st).2.es[cand.getD i 0]? =
           (init[cand.getD i 0]?).map
             (fun en => en.setHealthy false (errFn i).message now))) := by
  intro fuel
  induction fuel with
  | zero =>
    intro st hfuel hnd hbnd htr hle hmark hframe
    rw [loopGo]
    dsimp only
    have hsub : st.tried ⊆ List.range cand.length := by
      intro i hi; exact List.mem_range.mpr (hbnd i hi)
    have hlen : st.tried.length = cand.length := by
      have := (List.subperm_of_subset hnd hsub).length_le
      rw [List.length_range] at this
      omega
    have hmem_all : ∀ i < cand.length, i ∈ st.tried := by
      intro i hi
      have hperm := (List.subperm_of_subset hnd hsub).perm_of_length_le
        (by rw [List.length_range]; omega)
      exact hperm.mem_iff.mpr (List.mem_range.mpr hi)
    exact ⟨hnd, hlen, htr, by rw [hle], fun i hi => hmark i (hmem_all i hi)⟩
  | succ fuel ih =>
    intro st hfuel hnd hbnd htr hle hmark hframe
    rw [loopGo]
    by_cases hlt : st.tried.length < cand.length
    · rw [if_pos hlt]
      obtain ⟨idx, c', o', hsel, hidx, hfresh⟩ :=
        selectProxyIndex_mem rotation oracle st.counter st.oIdx cand.length
          st.tried hlt
      rw [hsel]
      dsimp only
      rw [hout idx hidx]
      dsimp only
      rw [if_pos (hto idx hidx)]
      have hinj : ∀ i ∈ st.tried, cand.getD i 0 ≠ cand.getD idx 0 := by
        intro i hi hc
        exact hfresh (by
          have := nodup_getD_inj cand hcand (hbnd i hi) hidx hc
          rw [← this]; exact hi)
      apply ih
      · simp only [List.length_append, List.length_singleton]
        omega
      · rw [List.nodup_append]
        refine ⟨hnd, List.nodup_singleton idx, ?_⟩
        intro a ha hb
        rw [List.mem_singleton] at hb
        subst hb
        exact hfresh ha
      · intro i hi
        rcases List.mem_append.mp hi with hi | hi
        · exact hbnd i hi
        · rw [List.mem_singleton] at hi; subst hi; exact hidx
      · dsimp only
        rw [htr, List.map_append]
        rfl
      · dsimp only
        rw [List.getLast?_concat]
        rfl
      · intro i hi
        dsimp only
        rcases List.mem_append.mp hi with hi | hi
        · rw [markEntryUnhealthy_getElem?_ne st.es (cand.getD idx 0)
            (cand.getD i 0) (errFn idx).message now (hinj i hi)]
          exact hmark i hi
        · rw [List.mem_singleton] at hi
          subst hi
          have hbase : st.es[cand.getD i 0]? = init[cand.getD i 0]? :=
            hframe _ (fun i' hi' => hinj i' hi')
          by_cases hj : cand.getD i 0 < st.es.length
          · rw [markEntryUnhealthy_getElem?_self st.es _ _ _ hj, hbase]
          · have h1 : st.es[cand.getD i 0]? = none :=
              List.getElem?_eq_none (by omega)
            have h2 : init[cand.getD i 0]? = none := by rw [← hbase]; exact h1
            rw [markEntryUnhealthy, h1]
            dsimp only
            rw [h1, h2, Option.map_none']
      · intro j hj
        dsimp only
        have hj' : cand.getD idx 0 ≠ j := by
          apply hj
          simp
        rw [markEntryUnhealthy_getElem?_ne st.es (cand.getD idx 0) j
          (errFn idx).message now (fun hc => hj' hc.symm)]
        apply hframe
        intro i hi
        apply hj
        rw [List.mem_append]
        exact Or.inl hi
    · rw [if_neg hlt]
      dsimp only
      have hsub : st.tried ⊆ List.range cand.length := by
        intro i hi; exact List.mem_range.mpr (hbnd i hi)
      have hlen : st.tried.length = cand.length := by
        have := (List.subperm_of_subset hnd hsub).length_le
        rw [List.length_range] at this
        omega
      have hmem_all : ∀ i < cand.length, i ∈ st.tried := by
        intro i hi
        have hperm := (List.subperm_of_subset hnd hsub).perm_of_length_le
          (by rw [List.length_range]; omega)
        exact hperm.mem_iff.mpr (List.mem_range.mpr hi)
      exact ⟨hnd, hlen, htr, by rw [hle], fun i hi => hmark i (hmem_all i hi)⟩

/--
Claim C3: in a multi-entry dispatch in which every attempted entry fails
with a timeout, the retry loop marks each timed-out entry `healthy = false`
with that attempt's error message, every candidate entry gets tried (the
trace covers all candidates), and once every candidate has been tried
`RoundTrip` returns an all-proxies-failed error wrapping the most recent
attempt's error.
-/
theorem roundTrip_all_timeouts (p : Pool) (outcome : Nat → RTResult)
    (oracle : Nat → Nat) (now : Nat) (errFn : Nat → GoErr)
    (hn : 2 ≤ (healthyIdxs p.entries).length) (hd : p.isDirect = false)
    (hout : ∀ i < (healthyIdxs p.entries).length, outcome i = .fail (errFn i))
    (hto : ∀ i < (healthyIdxs p.entries).length,
      isTimeoutError (errFn i) = true) :
    (∃ iL, (PoolRoundTrip p outcome oracle now).trace.getLast? =
        some ⟨iL, .fail (errFn iL)⟩ ∧
      (PoolRoundTrip p outcome oracle now).out =
        .err (.wrapped "all proxies failed" (errFn iL))) ∧
    (PoolRoundTrip p outcome oracle now).trace.length =
      (healthyIdxs p.entries).length ∧
    (∀ i < (healthyIdxs p.entries).length,
      (PoolRoundTrip p outcome oracle
          now).pool.entries[(healthyIdxs p.entries).getD i 0]? =
        (p.entries[(healthyIdxs p.entries).getD i 0]?).map
          (fun en => en.setHealthy false (errFn i).message now)) := by
  rcases hr : loopGo outcome oracle now p.rotation (healthyIdxs p.entries)
      ((healthyIdxs p.entries).length + 1)
      ⟨p.entries, [], p.counter, 0, none, []⟩ with ⟨out, st'⟩
  have hPR : PoolRoundTrip p outcome oracle now =
      ⟨out, { p with entries := st'.es, counter := st'.counter }, st'.trace⟩ := by
    rw [PoolRoundTrip]
    rw [if_neg (by omega), if_neg (by push_neg; exact ⟨by omega, by simp [hd]⟩)]
    rw [hr]
  have hall := loopGo_all_timeouts outcome oracle now p.rotation
    (healthyIdxs p.entries) errFn p.entries (healthyIdxs_nodup p.entries)
    hout hto ((healthyIdxs p.entries).length + 1)
    ⟨p.entries, [], p.counter, 0, none, []⟩
    (by dsimp only; omega) (by exact List.nodup_nil) (by intro i hi; simp at hi)
    rfl rfl (by intro i hi; simp at hi) (fun j _ => rfl)
  rw [hr] at hall
  obtain ⟨a1, a2, a3, a4, a5⟩ := hall
  dsimp only at a1 a2 a3 a4 a5
  have hne : st'.tried ≠ [] := by
    intro hc
    rw [hc] at a2
    simp at a2
    omega
  have hgl : st'.tried.getLast? = some (st'.tried.getLast hne) :=
    List.getLast?_eq_getLast st'.tried hne
  rw [hPR]
  dsimp only
  refine ⟨⟨st'.tried.getLast hne, ?_, ?_⟩, ?_, ?_⟩
  · rw [a3, List.getLast?_map, hgl]
    rfl
  · rw [a4, hgl]
    rfl
  · rw [a3, List.length_map, a2]
  · exact a5

/-- Witness for C3: two healthy entries, every attempt failing with the
context deadline-exceeded timeout. -/
theorem roundTrip_all_timeouts_witness :
    (∃ iL, (PoolRoundTrip { entries := [newEntry { type := "socks5", address := "p1:1080" }, newEntry { type := "http", address := "p2:8080" }], rotation := "round-robin", counter := 0, isDirect := false } (fun _ => .fail .ctxDeadline) (fun _ => 0) 5).trace.getLast? =
        some ⟨iL, .fail ((fun _ => GoErr.ctxDeadline) iL)⟩ ∧
      (PoolRoundTrip { entries := [newEntry { type := "socks5", address := "p1:1080" }, newEntry { type := "http", address := "p2:8080" }], rotation := "round-robin", counter := 0, isDirect := false } (fun _ => .fail .ctxDeadline) (fun _ => 0) 5).out =
        .err (.wrapped "all proxies failed" ((fun _ => GoErr.ctxDeadline) iL))) ∧
    (PoolRoundTrip { entries := [newEntry { type := "socks5", address := "p1:1080" }, newEntry { type := "http", address := "p2:8080" }], rotation := "round-robin", counter := 0, isDirect := false } (fun _ => .fail .ctxDeadline) (fun _ => 0) 5).trace.length =
      (healthyIdxs [newEntry { type := "socks5", address := "p1:1080" }, newEntry { type := "http", address := "p2:8080" }]).length ∧
    (∀ i < (healthyIdxs [newEntry { type := "socks5", address := "p1:1080" }, newEntry { type := "http", address := "p2:8080" }]).length,
      (PoolRoundTrip { entries := [newEntry { type := "socks5", address := "p1:1080" }, newEntry { type := "http", address := "p2:8080" }], rotation := "round-robin", counter := 0, isDirect := false } (fun _ => .fail .ctxDeadline) (fun _ => 0) 5).pool.entries[(healthyIdxs [newEntry { type := "socks5", address := "p1:1080" }, newEntry { type := "http", address := "p2:8080" }]).getD i 0]? =
        ([newEntry { type := "socks5", address := "p1:1080" }, newEntry { type := "http", address := "p2:8080" }][(healthyIdxs [newEntry { type := "socks5", address := "p1:1080" }, newEntry { type := "http", address := "p2:8080" }]).getD i 0]?).map
          (fun en => en.setHealthy false ((fun _ => GoErr.ctxDeadline) i).message 5)) := by
  exact roundTrip_all_timeouts _ _ _ _ _ (by decide) rfl (fun i _ => rfl)
    (fun i _ => isTimeoutError_ctx_eval)

end SockStream
